import Mathlib

/-!
# The owners-label plugin

A shallow embedding of `pkg/plugins/owners-label/owners-label.go`.

* Go `error` values are an inductive type, `fmt.Errorf` with `%w` is the wrapping constructor.
* `sets.Set[string]` is `Finset String`; `sets.List` is the ascending sort of the set.
* The two collaborators of `handle`, the `githubClient` and the `ownersClient`, are records of
  functions. A `githubClient` is stateful: every operation takes the state of the remote side and
  returns its result together with the next state.
* The logger is modelled by the list of entries that the run appends.
* `World` and `Script` give one concrete remote side: it records every call and keeps the labels
  applied to each pull request.
-/

namespace OwnersLabel

/-! ## Go values -/

/-- A Go `error` value: either a plain error carrying its message, or the value produced by
`fmt.Errorf` with a `%w` verb, which carries the formatted message and the wrapped error. -/
inductive GoError where
  | errorString (s : String)
  | wrapError (msg : String) (err : GoError)
  deriving DecidableEq, Repr

/-- The method `Error()` of a Go error. -/
def GoError.Error : GoError → String
  | .errorString s => s
  | .wrapError msg _ => msg

/-- The call `fmt.Errorf(pre + "%w", err)` for a format made of the literal text `pre` followed
by one `%w` verb. -/
def Errorf_w (pre : String) (err : GoError) : GoError :=
  .wrapError (pre ++ err.Error) err

/-- The type `sets.Set[string]` of `k8s.io/apimachinery/pkg/util/sets`. -/
abbrev sets.Set := Finset String

/-- The function `sets.List`: the elements of the set as a sorted slice. -/
def sets.List (s : sets.Set) : List String := s.sort (· ≤ ·)

/-- Modelled from the spec: the type `github.Label` is declared outside the source file; the
plugin reads only the name of a label. -/
structure Label where
  Name : String
  deriving DecidableEq, Repr

/-- Modelled from the spec: the type `github.PullRequestChange` is declared outside the source
file; the plugin reads only the path of the changed file. -/
structure PullRequestChange where
  Filename : String
  deriving DecidableEq, Repr

/-- Modelled from the spec: the type `github.PullRequestEventAction` is a string type declared
outside the source file. -/
abbrev PullRequestEventAction := String

/-- Modelled from the spec: the action kind of an event for an opened pull request. -/
def PullRequestActionOpened : PullRequestEventAction := "opened"

/-- Modelled from the spec: the action kind of an event for a reopened pull request. -/
def PullRequestActionReopened : PullRequestEventAction := "reopened"

/-- Modelled from the spec: the action kind of an event for new commits on a pull request. -/
def PullRequestActionSynchronize : PullRequestEventAction := "synchronize"

/-- Modelled from the spec: the owner of a repository, of which the login is read. -/
structure User where
  Login : String
  deriving DecidableEq, Repr

/-- Modelled from the spec: the repository of an event, of which owner and name are read. -/
structure Repo where
  Owner : User
  Name : String
  deriving DecidableEq, Repr

/-- Modelled from the spec: a branch of a pull request, of which the reference is read. -/
structure PullRequestBranch where
  Ref : String
  deriving DecidableEq, Repr

/-- Modelled from the spec: the pull request of an event, of which the base branch is read. -/
structure PullRequest where
  Base : PullRequestBranch
  deriving DecidableEq, Repr

/-- Modelled from the spec: the type `github.PullRequestEvent` is declared outside the source
file; the plugin reads the action, the number, the repository and the base branch. -/
structure PullRequestEvent where
  Action : PullRequestEventAction
  Number : Int
  PullRequest : PullRequest
  Repo : Repo
  deriving DecidableEq, Repr

/-! ## The collaborators -/

/-- The interface `ownersClient`. -/
structure ownersClient where
  FindLabelsForFile : String → sets.Set

/-- The interface `githubClient`, over the state `σ` of the remote side. `AddLabel` returns the
Go error (`none` is `nil`); the reads return the slice or the error. -/
structure githubClient (σ : Type) where
  AddLabel : String → String → Int → String → σ → Option GoError × σ
  GetIssueLabels : String → String → Int → σ → Except GoError (List Label) × σ
  GetRepoLabels : String → String → σ → Except GoError (List Label) × σ
  GetPullRequestChanges : String → String → Int → σ → Except GoError (List PullRequestChange) × σ

/-- One entry written to the logger: the level, the error attached with `WithError` (if any),
the format string and the formatted arguments. -/
inductive LogEntry where
  | Errorf (err : GoError) (format : String) (arg : String)
  | Warnf (format : String) (arg : List String)
  deriving DecidableEq, Repr

/-- What a run of `handle` leaves behind: the returned error (`none` is `nil`), the entries
written to the logger in order, and the final state of the remote side. -/
structure Outcome (σ : Type) where
  err : Option GoError
  log : List LogEntry
  state : σ

/-- The state carried by the last loop of `handle`: the set `nonexistent`, the entries logged so
far and the state of the remote side. -/
structure LoopState (σ : Type) where
  nonexistent : sets.Set
  log : List LogEntry
  state : σ

/-! ## The plugin -/

/-- The body of the loop over `sets.List(neededLabels.Difference(currentLabels))` in `handle`. -/
def addStep {σ : Type} (ghc : githubClient σ) (org repo : String) (number : Int)
    (RepoLabelsExisting : sets.Set) (st : LoopState σ) (labelToAdd : String) : LoopState σ :=
  if ¬ labelToAdd ∈ RepoLabelsExisting then
    { st with nonexistent := insert labelToAdd st.nonexistent }
  else
    match ghc.AddLabel org repo number labelToAdd st.state with
    | (some err, s) =>
      { st with
        log := st.log ++ [.Errorf err "GitHub failed to add the following label: %s" labelToAdd]
        state := s }
    | (none, s) => { st with state := s }

/-- The function `handle`. -/
def handle {σ : Type} (ghc : githubClient σ) (oc : ownersClient) (pre : PullRequestEvent)
    (s : σ) : Outcome σ :=
  let org := pre.Repo.Owner.Login
  let repo := pre.Repo.Name
  let number := pre.Number
  match ghc.GetPullRequestChanges org repo number s with
  | (.error err, s1) => ⟨some (Errorf_w "error getting PR changes: " err), [], s1⟩
  | (.ok changes, s1) =>
    let neededLabels : sets.Set :=
      changes.foldl (fun acc change => acc ∪ oc.FindLabelsForFile change.Filename) ∅
    if neededLabels.card = 0 then ⟨none, [], s1⟩
    else
      match ghc.GetRepoLabels org repo s1 with
      | (.error err, s2) => ⟨some err, [], s2⟩
      | (.ok repoLabels, s2) =>
        match ghc.GetIssueLabels org repo number s2 with
        | (.error err, s3) => ⟨some err, [], s3⟩
        | (.ok issuelabels, s3) =>
          let RepoLabelsExisting : sets.Set :=
            repoLabels.foldl (fun acc label => insert label.Name acc) ∅
          let currentLabels : sets.Set :=
            issuelabels.foldl (fun acc label => insert label.Name acc) ∅
          let st := (sets.List (neededLabels \ currentLabels)).foldl
            (addStep ghc org repo number RepoLabelsExisting) ⟨∅, [], s3⟩
          if st.nonexistent.card > 0 then
            ⟨none, st.log ++ [.Warnf "Unable to add nonexistent labels: %q"
              (sets.List st.nonexistent)], st.state⟩
          else ⟨none, st.log, st.state⟩

/-- Modelled from the spec: the field `OwnersClient` of `plugins.Agent` is declared outside the
source file; `LoadRepoOwners(org, repo, base)` returns the owners client or an error. -/
structure OwnersLoader (σ : Type) where
  LoadRepoOwners : String → String → String → σ → Except GoError ownersClient × σ

/-- Modelled from the spec: the type `plugins.Agent` is declared outside the source file; the
plugin reads the owners loader and the tracker client (the logger is the returned log). -/
structure Agent (σ : Type) where
  OwnersClient : OwnersLoader σ
  GitHubClient : githubClient σ

/-- The function `handlePullRequest`. -/
def handlePullRequest {σ : Type} (pc : Agent σ) (pre : PullRequestEvent) (s : σ) : Outcome σ :=
  if pre.Action ≠ PullRequestActionOpened ∧ pre.Action ≠ PullRequestActionReopened
      ∧ pre.Action ≠ PullRequestActionSynchronize then
    ⟨none, [], s⟩
  else
    match pc.OwnersClient.LoadRepoOwners pre.Repo.Owner.Login pre.Repo.Name
        pre.PullRequest.Base.Ref s with
    | (.error err, s1) => ⟨some (Errorf_w "error loading RepoOwners: " err), [], s1⟩
    | (.ok oc, s1) => handle pc.GitHubClient oc pre s1

/-! ## A recording tracker -/

/-- One call made to a collaborator, with its arguments; an `AddLabel` call also carries the
error it returned (`none` is `nil`). -/
inductive Call where
  | LoadRepoOwners (org repo base : String)
  | GetPullRequestChanges (org repo : String) (number : Int)
  | GetRepoLabels (org repo : String)
  | GetIssueLabels (org repo : String) (number : Int)
  | AddLabel (org repo : String) (number : Int) (label : String) (err : Option GoError)
  deriving DecidableEq, Repr

/-- The state of the remote side: the labels applied to each pull request (by organization,
repository and number) and the calls received so far, oldest first. -/
structure World where
  applied : String → String → Int → Finset String
  calls : List Call

/-- The answers of the remote side: the result of loading the ownership data, the results of
the three reads, and for each `AddLabel` call the error it returns, which may depend on the
state of the remote side at the time of the call and on the label. -/
structure Script where
  owners : Except GoError ownersClient
  changes : Except GoError (List PullRequestChange)
  repoLabels : Except GoError (List Label)
  issueLabels : Except GoError (List Label)
  addLabel : World → String → Option GoError

/-- The labels of pull request `number` of `org/repo` after `label` is applied to it. -/
def applyLabel (applied : String → String → Int → Finset String) (org repo : String)
    (number : Int) (label : String) : String → String → Int → Finset String :=
  fun o r n => if o = org ∧ r = repo ∧ n = number then insert label (applied o r n)
    else applied o r n

/-- The tracker that answers from the script and records each call. A successful `AddLabel`
inserts the label into the labels of the pull request, a failed one leaves them unchanged; the
reads leave them unchanged. -/
def tracker (sc : Script) : githubClient World where
  AddLabel org repo number label w :=
    match sc.addLabel w label with
    | some err => (some err, ⟨w.applied, w.calls ++ [.AddLabel org repo number label (some err)]⟩)
    | none => (none, ⟨applyLabel w.applied org repo number label,
        w.calls ++ [.AddLabel org repo number label none]⟩)
  GetIssueLabels org repo number w :=
    (sc.issueLabels, ⟨w.applied, w.calls ++ [.GetIssueLabels org repo number]⟩)
  GetRepoLabels org repo w :=
    (sc.repoLabels, ⟨w.applied, w.calls ++ [.GetRepoLabels org repo]⟩)
  GetPullRequestChanges org repo number w :=
    (sc.changes, ⟨w.applied, w.calls ++ [.GetPullRequestChanges org repo number]⟩)

/-- The owners loader that answers from the script and records the call. -/
def loader (sc : Script) : OwnersLoader World where
  LoadRepoOwners org repo base w :=
    (sc.owners, ⟨w.applied, w.calls ++ [.LoadRepoOwners org repo base]⟩)

/-- The agent made of the recording loader and the recording tracker. -/
def agent (sc : Script) : Agent World := ⟨loader sc, tracker sc⟩

/-- The calls received during a run that started in world `w` and ended in world `w1`. -/
def issued (w w1 : World) : List Call := w1.calls.drop w.calls.length

/-- The label of an `AddLabel` call. -/
def Call.added : Call → Option String
  | .AddLabel _ _ _ label _ => some label
  | _ => none

/-- The label of an `AddLabel` call that returned no error. -/
def Call.succeeded : Call → Option String
  | .AddLabel _ _ _ label none => some label
  | _ => none

/-- The label of an `AddLabel` call that returned an error. -/
def Call.failed : Call → Option String
  | .AddLabel _ _ _ label (some _) => some label
  | _ => none

/-- The labels passed to `AddLabel` among the calls, in call order. -/
def addLabelCalls (cs : List Call) : List String := cs.filterMap Call.added

/-- The labels whose `AddLabel` call returned no error, in call order. -/
def succeededAdds (cs : List Call) : List String := cs.filterMap Call.succeeded

/-- The labels whose `AddLabel` call returned an error, in call order. -/
def failedAdds (cs : List Call) : List String := cs.filterMap Call.failed

/-- The entry that `handle` logs for an `AddLabel` call that returned an error. -/
def Call.logged : Call → Option LogEntry
  | .AddLabel _ _ _ label (some err) =>
    some (.Errorf err "GitHub failed to add the following label: %s" label)
  | _ => none

/-- The labels that a log entry reports as nonexistent: the argument of the warning
`Unable to add nonexistent labels`, nothing for any other entry. -/
def LogEntry.reported : LogEntry → List String
  | .Warnf format arg => if format = "Unable to add nonexistent labels: %q" then arg else []
  | .Errorf _ _ _ => []

/-- The labels reported as nonexistent by the entries of a log, in log order. -/
def reportedNonexistent (log : List LogEntry) : List String :=
  (log.map LogEntry.reported).flatten

/-- Whether a log entry is the warning `Unable to add nonexistent labels`. -/
def LogEntry.isNonexistentWarning : LogEntry → Bool
  | .Warnf format _ => decide (format = "Unable to add nonexistent labels: %q")
  | .Errorf _ _ _ => false

/-- Whether the warning `Unable to add nonexistent labels` is in the log. -/
def warnedNonexistent (log : List LogEntry) : Bool := log.any LogEntry.isNonexistentWarning

/-! ## The sets of the specification -/

/-- The set `required`: the union of `FindLabelsForFile(f)` over all changed files `f`. -/
def required (oc : ownersClient) (changes : List PullRequestChange) : Finset String :=
  changes.toFinset.biUnion (fun change => oc.FindLabelsForFile change.Filename)

/-- The set of the names of a list of labels: `validLabels` for the labels of the repository,
`currentLabels` for the labels of the pull request. -/
def labelNames (labels : List Label) : Finset String := (labels.map Label.Name).toFinset

/-! ## The three loops that build sets -/

theorem foldl_union_required (oc : ownersClient) (changes : List PullRequestChange)
    (acc : Finset String) :
    changes.foldl (fun acc change => acc ∪ oc.FindLabelsForFile change.Filename) acc
      = acc ∪ required oc changes := by
  induction changes generalizing acc with
  | nil => simp [required]
  | cons c cs ih =>
    rw [List.foldl_cons, ih]
    ext l
    simp only [required, Finset.mem_union, Finset.mem_biUnion, List.mem_toFinset,
      List.mem_cons]
    constructor
    · rintro ((h | h) | ⟨d, hd, h⟩)
      · exact Or.inl h
      · exact Or.inr ⟨c, Or.inl rfl, h⟩
      · exact Or.inr ⟨d, Or.inr hd, h⟩
    · rintro (h | ⟨d, rfl | hd, h⟩)
      · exact Or.inl (Or.inl h)
      · exact Or.inl (Or.inr h)
      · exact Or.inr ⟨d, hd, h⟩

theorem foldl_insert_labelNames (labels : List Label) (acc : Finset String) :
    labels.foldl (fun acc label => insert label.Name acc) acc = acc ∪ labelNames labels := by
  induction labels generalizing acc with
  | nil => simp [labelNames]
  | cons c cs ih =>
    rw [List.foldl_cons, ih]
    ext l
    simp only [labelNames, Finset.mem_union, Finset.mem_insert, List.mem_toFinset, List.map_cons,
      List.mem_cons]
    tauto

/-! ## The loop that adds labels -/

theorem addStep_nonexistent (sc : Script) (org repo : String) (number : Int)
    (valid : Finset String) (st : LoopState World) (a : String) (h : a ∉ valid) :
    addStep (tracker sc) org repo number valid st a
      = ⟨insert a st.nonexistent, st.log, st.state⟩ := by
  simp [addStep, h]

theorem addStep_failed (sc : Script) (org repo : String) (number : Int)
    (valid : Finset String) (st : LoopState World) (a : String) (h : a ∈ valid)
    (err : GoError) (he : sc.addLabel st.state a = some err) :
    addStep (tracker sc) org repo number valid st a
      = ⟨st.nonexistent, st.log ++ [.Errorf err "GitHub failed to add the following label: %s" a],
          ⟨st.state.applied, st.state.calls ++ [.AddLabel org repo number a (some err)]⟩⟩ := by
  simp [addStep, h, tracker, he]

theorem addStep_succeeded (sc : Script) (org repo : String) (number : Int)
    (valid : Finset String) (st : LoopState World) (a : String) (h : a ∈ valid)
    (he : sc.addLabel st.state a = none) :
    addStep (tracker sc) org repo number valid st a
      = ⟨st.nonexistent, st.log,
          ⟨applyLabel st.state.applied org repo number a,
            st.state.calls ++ [.AddLabel org repo number a none]⟩⟩ := by
  simp [addStep, h, tracker, he]

/-- The loop over the missing labels, run against the recording tracker: the calls it issues
are `AddLabel` calls for the pull request, one for each label of the list that is in the
vocabulary, in the order of the list; the labels of the pull request grow by the labels whose
call succeeded; the other labels of the list are collected in `nonexistent`; one entry is logged
for each failed call. -/
theorem addLoop_spec (sc : Script) (org repo : String) (number : Int) (valid : Finset String)
    (L : List String) (st : LoopState World) :
    ∃ E : List Call,
      (L.foldl (addStep (tracker sc) org repo number valid) st).state.calls
        = st.state.calls ++ E ∧
      addLabelCalls E = L.filter (fun l => decide (l ∈ valid)) ∧
      (∀ c ∈ E, ∃ l e, c = Call.AddLabel org repo number l e) ∧
      (L.foldl (addStep (tracker sc) org repo number valid) st).state.applied
        = (fun o r n => if o = org ∧ r = repo ∧ n = number
            then st.state.applied o r n ∪ (succeededAdds E).toFinset
            else st.state.applied o r n) ∧
      (L.foldl (addStep (tracker sc) org repo number valid) st).nonexistent
        = st.nonexistent ∪ (L.filter (fun l => decide (l ∉ valid))).toFinset ∧
      (L.foldl (addStep (tracker sc) org repo number valid) st).log
        = st.log ++ E.filterMap Call.logged := by
  induction L generalizing st with
  | nil =>
    refine ⟨[], by simp, by simp [addLabelCalls], by simp, ?_, by simp, by simp⟩
    funext o r n
    simp [succeededAdds]
  | cons a L ih =>
    rw [List.foldl_cons]
    by_cases ha : a ∈ valid
    · cases he : sc.addLabel st.state a with
      | none =>
        rw [addStep_succeeded sc org repo number valid st a ha he]
        obtain ⟨E, h1, h2, h3, h4, h5, h6⟩ := ih
          ⟨st.nonexistent, st.log, ⟨applyLabel st.state.applied org repo number a,
            st.state.calls ++ [.AddLabel org repo number a none]⟩⟩
        refine ⟨.AddLabel org repo number a none :: E, ?_, ?_, ?_, ?_, ?_, ?_⟩
        · rw [h1]; simp
        · simp only [addLabelCalls] at h2 ⊢
          simp [List.filterMap_cons, Call.added, h2, ha]
        · intro c hc
          rcases List.mem_cons.mp hc with rfl | hc
          · exact ⟨a, none, rfl⟩
          · exact h3 c hc
        · rw [h4]
          funext o r n
          by_cases hk : o = org ∧ r = repo ∧ n = number
          · simp only [hk, and_self, if_true, applyLabel, succeededAdds, List.filterMap_cons,
              Call.succeeded, List.toFinset_cons]
            ext l
            simp only [Finset.mem_union, Finset.mem_insert]
            tauto
          · simp [hk, applyLabel]
        · rw [h5]; simp [ha]
        · rw [h6]; simp [List.filterMap_cons, Call.logged]
      | some err =>
        rw [addStep_failed sc org repo number valid st a ha err he]
        obtain ⟨E, h1, h2, h3, h4, h5, h6⟩ := ih
          ⟨st.nonexistent,
            st.log ++ [.Errorf err "GitHub failed to add the following label: %s" a],
            ⟨st.state.applied, st.state.calls ++ [.AddLabel org repo number a (some err)]⟩⟩
        refine ⟨.AddLabel org repo number a (some err) :: E, ?_, ?_, ?_, ?_, ?_, ?_⟩
        · rw [h1]; simp
        · simp only [addLabelCalls] at h2 ⊢
          simp [List.filterMap_cons, Call.added, h2, ha]
        · intro c hc
          rcases List.mem_cons.mp hc with rfl | hc
          · exact ⟨a, some err, rfl⟩
          · exact h3 c hc
        · rw [h4]
          simp [succeededAdds, List.filterMap_cons, Call.succeeded]
        · rw [h5]; simp [ha]
        · rw [h6]; simp [List.filterMap_cons, Call.logged]
    · rw [addStep_nonexistent sc org repo number valid st a ha]
      obtain ⟨E, h1, h2, h3, h4, h5, h6⟩ := ih ⟨insert a st.nonexistent, st.log, st.state⟩
      refine ⟨E, h1, ?_, h3, h4, ?_, h6⟩
      · rw [h2]; simp [ha]
      · rw [h5]
        ext l
        simp only [Finset.mem_union, Finset.mem_insert, List.mem_toFinset, List.mem_filter,
          List.mem_cons, decide_eq_true_eq]
        constructor
        · rintro ((rfl | h) | h)
          · exact Or.inr ⟨Or.inl rfl, ha⟩
          · exact Or.inl h
          · exact Or.inr ⟨Or.inr h.1, h.2⟩
        · rintro (h | ⟨rfl | h, h2⟩)
          · exact Or.inl (Or.inr h)
          · exact Or.inl (Or.inl rfl)
          · exact Or.inr ⟨h, h2⟩

/-! ## The paths through `handle` -/

theorem tracker_GetPullRequestChanges (sc : Script) (org repo : String) (number : Int)
    (w : World) :
    (tracker sc).GetPullRequestChanges org repo number w
      = (sc.changes, ⟨w.applied, w.calls ++ [.GetPullRequestChanges org repo number]⟩) := rfl

theorem tracker_GetRepoLabels (sc : Script) (org repo : String) (w : World) :
    (tracker sc).GetRepoLabels org repo w
      = (sc.repoLabels, ⟨w.applied, w.calls ++ [.GetRepoLabels org repo]⟩) := rfl

theorem tracker_GetIssueLabels (sc : Script) (org repo : String) (number : Int) (w : World) :
    (tracker sc).GetIssueLabels org repo number w
      = (sc.issueLabels, ⟨w.applied, w.calls ++ [.GetIssueLabels org repo number]⟩) := rfl

theorem handle_changes_error (sc : Script) (oc : ownersClient) (pre : PullRequestEvent)
    (w : World) (e : GoError) (hc : sc.changes = .error e) :
    handle (tracker sc) oc pre w
      = ⟨some (Errorf_w "error getting PR changes: " e), [],
          ⟨w.applied, w.calls ++ [.GetPullRequestChanges pre.Repo.Owner.Login pre.Repo.Name
            pre.Number]⟩⟩ := by
  simp [handle, tracker, hc]

theorem handle_no_required (sc : Script) (oc : ownersClient) (pre : PullRequestEvent)
    (w : World) (cs : List PullRequestChange) (hc : sc.changes = .ok cs)
    (hr : required oc cs = ∅) :
    handle (tracker sc) oc pre w
      = ⟨none, [],
          ⟨w.applied, w.calls ++ [.GetPullRequestChanges pre.Repo.Owner.Login pre.Repo.Name
            pre.Number]⟩⟩ := by
  simp [handle, tracker, hc, foldl_union_required, hr]

theorem handle_repoLabels_error (sc : Script) (oc : ownersClient) (pre : PullRequestEvent)
    (w : World) (cs : List PullRequestChange) (hc : sc.changes = .ok cs)
    (hr : required oc cs ≠ ∅) (e : GoError) (hl : sc.repoLabels = .error e) :
    handle (tracker sc) oc pre w
      = ⟨some e, [],
          ⟨w.applied, w.calls ++ [.GetPullRequestChanges pre.Repo.Owner.Login pre.Repo.Name
            pre.Number, .GetRepoLabels pre.Repo.Owner.Login pre.Repo.Name]⟩⟩ := by
  simp [handle, tracker, hc, foldl_union_required, hr, hl]

theorem handle_issueLabels_error (sc : Script) (oc : ownersClient) (pre : PullRequestEvent)
    (w : World) (cs : List PullRequestChange) (hc : sc.changes = .ok cs)
    (hr : required oc cs ≠ ∅) (rl : List Label) (hl : sc.repoLabels = .ok rl)
    (e : GoError) (hi : sc.issueLabels = .error e) :
    handle (tracker sc) oc pre w
      = ⟨some e, [],
          ⟨w.applied, w.calls ++ [.GetPullRequestChanges pre.Repo.Owner.Login pre.Repo.Name
            pre.Number, .GetRepoLabels pre.Repo.Owner.Login pre.Repo.Name,
            .GetIssueLabels pre.Repo.Owner.Login pre.Repo.Name pre.Number]⟩⟩ := by
  simp [handle, tracker, hc, foldl_union_required, hr, hl, hi]

/-- The run of `handle` in which the three reads succeed and some label is required: it returns
no error; after the three reads it issues `AddLabel` calls only, for the missing labels that are
in the vocabulary, in ascending order; the labels of the pull request grow by the labels whose
call succeeded; the log holds one entry for each failed call, followed by the warning when some
missing label is not in the vocabulary. -/
theorem handle_reads_ok (sc : Script) (oc : ownersClient) (pre : PullRequestEvent)
    (w : World) (cs : List PullRequestChange) (hc : sc.changes = .ok cs)
    (hr : required oc cs ≠ ∅) (rl : List Label) (hl : sc.repoLabels = .ok rl)
    (il : List Label) (hi : sc.issueLabels = .ok il) :
    ∃ E : List Call,
      (handle (tracker sc) oc pre w).err = none ∧
      (handle (tracker sc) oc pre w).state.calls
        = w.calls ++ [.GetPullRequestChanges pre.Repo.Owner.Login pre.Repo.Name pre.Number,
            .GetRepoLabels pre.Repo.Owner.Login pre.Repo.Name,
            .GetIssueLabels pre.Repo.Owner.Login pre.Repo.Name pre.Number] ++ E ∧
      addLabelCalls E = (sets.List (required oc cs \ labelNames il)).filter
        (fun l => decide (l ∈ labelNames rl)) ∧
      (∀ c ∈ E, ∃ l e, c = Call.AddLabel pre.Repo.Owner.Login pre.Repo.Name pre.Number l e) ∧
      (handle (tracker sc) oc pre w).state.applied
        = (fun o r n => if o = pre.Repo.Owner.Login ∧ r = pre.Repo.Name ∧ n = pre.Number
            then w.applied o r n ∪ (succeededAdds E).toFinset
            else w.applied o r n) ∧
      (handle (tracker sc) oc pre w).log
        = E.filterMap Call.logged ++
          (if (required oc cs \ labelNames il) \ labelNames rl = ∅ then []
           else [.Warnf "Unable to add nonexistent labels: %q"
              (sets.List ((required oc cs \ labelNames il) \ labelNames rl))]) := by
  obtain ⟨E, h1, h2, h3, h4, h5, h6⟩ := addLoop_spec sc pre.Repo.Owner.Login pre.Repo.Name
    pre.Number (labelNames rl) (sets.List (required oc cs \ labelNames il))
    ⟨∅, [], ⟨w.applied, w.calls ++ [.GetPullRequestChanges pre.Repo.Owner.Login pre.Repo.Name
      pre.Number, .GetRepoLabels pre.Repo.Owner.Login pre.Repo.Name,
      .GetIssueLabels pre.Repo.Owner.Login pre.Repo.Name pre.Number]⟩⟩
  have hne : (List.filter (fun l => decide (l ∉ labelNames rl))
      (sets.List (required oc cs \ labelNames il))).toFinset
        = (required oc cs \ labelNames il) \ labelNames rl := by
    ext l
    simp [sets.List]
  simp only [Finset.empty_union, List.nil_append] at h5 h6
  rw [hne] at h5
  have hcard : ¬ (required oc cs).card = 0 := by
    rw [Finset.card_eq_zero]; exact hr
  refine ⟨E, ?_, ?_, h2, h3, ?_, ?_⟩
  · simp only [handle, tracker_GetPullRequestChanges, tracker_GetRepoLabels,
      tracker_GetIssueLabels, hc, foldl_union_required, hl, hi, foldl_insert_labelNames,
      Finset.empty_union, hcard, if_false]
    split <;> rfl
  · simp only [handle, tracker_GetPullRequestChanges, tracker_GetRepoLabels,
      tracker_GetIssueLabels, hc, foldl_union_required, hl, hi, foldl_insert_labelNames,
      Finset.empty_union, hcard, if_false]
    split <;> simpa using h1
  · simp only [handle, tracker_GetPullRequestChanges, tracker_GetRepoLabels,
      tracker_GetIssueLabels, hc, foldl_union_required, hl, hi, foldl_insert_labelNames,
      Finset.empty_union, hcard, if_false]
    split <;> simpa using h4
  · simp only [handle, tracker_GetPullRequestChanges, tracker_GetRepoLabels,
      tracker_GetIssueLabels, hc, foldl_union_required, hl, hi, foldl_insert_labelNames,
      Finset.empty_union, hcard, if_false]
    simp only [List.append_assoc, List.singleton_append, List.cons_append, List.nil_append] at *
    rw [h5]
    by_cases hz : (required oc cs \ labelNames il) \ labelNames rl = ∅
    · simp [h6, hz]
    · have hpos : 0 < ((required oc cs \ labelNames il) \ labelNames rl).card :=
        Finset.card_pos.mpr (Finset.nonempty_iff_ne_empty.mpr hz)
      simp [h6, hz, hpos]

/-! ## Facts about every run -/

theorem issued_append (w : World) (applied : String → String → Int → Finset String)
    (X : List Call) : issued w ⟨applied, w.calls ++ X⟩ = X := by
  simp [issued]

theorem issued_of_calls_eq (w w1 : World) (X : List Call) (h : w1.calls = w.calls ++ X) :
    issued w w1 = X := by
  simp [issued, h]

theorem addLabelCalls_append (X Y : List Call) :
    addLabelCalls (X ++ Y) = addLabelCalls X ++ addLabelCalls Y := by
  simp [addLabelCalls]

theorem succeededAdds_append (X Y : List Call) :
    succeededAdds (X ++ Y) = succeededAdds X ++ succeededAdds Y := by
  simp [succeededAdds]

theorem failedAdds_append (X Y : List Call) :
    failedAdds (X ++ Y) = failedAdds X ++ failedAdds Y := by
  simp [failedAdds]

/-- With the three reads successful, the labels passed to `AddLabel` are, in call order, the
ascending list of the missing labels filtered by the vocabulary; the labels of the pull request
grow by the labels whose call succeeded; no error is returned. -/
theorem handle_reads_ok_summary (sc : Script) (oc : ownersClient) (pre : PullRequestEvent)
    (w : World) (cs : List PullRequestChange) (hc : sc.changes = .ok cs)
    (rl : List Label) (hl : sc.repoLabels = .ok rl)
    (il : List Label) (hi : sc.issueLabels = .ok il) :
    (handle (tracker sc) oc pre w).err = none ∧
    addLabelCalls (issued w (handle (tracker sc) oc pre w).state)
      = (sets.List (required oc cs \ labelNames il)).filter
          (fun l => decide (l ∈ labelNames rl)) ∧
    (handle (tracker sc) oc pre w).state.applied
      = (fun o r n => if o = pre.Repo.Owner.Login ∧ r = pre.Repo.Name ∧ n = pre.Number
          then w.applied o r n
            ∪ (succeededAdds (issued w (handle (tracker sc) oc pre w).state)).toFinset
          else w.applied o r n) := by
  by_cases hr : required oc cs = ∅
  · rw [handle_no_required sc oc pre w cs hc hr, issued_append]
    refine ⟨rfl, ?_, ?_⟩
    · simp [addLabelCalls, Call.added, hr, sets.List]
    · funext o r n
      simp [succeededAdds, Call.succeeded]
  · obtain ⟨E, h1, h2, h3, _, h5, _⟩ := handle_reads_ok sc oc pre w cs hc hr rl hl il hi
    rw [List.append_assoc] at h2
    rw [issued_of_calls_eq w _ _ h2]
    refine ⟨h1, ?_, ?_⟩
    · rw [addLabelCalls_append, h3]
      simp [addLabelCalls, Call.added]
    · rw [h5, succeededAdds_append]
      simp [succeededAdds, Call.succeeded]

/-- The five paths through `handle`, by the answers of the script. -/
theorem handle_paths (sc : Script) (oc : ownersClient) :
    (∃ e, sc.changes = .error e) ∨
    (∃ cs, sc.changes = .ok cs ∧ required oc cs = ∅) ∨
    (∃ cs e, sc.changes = .ok cs ∧ required oc cs ≠ ∅ ∧ sc.repoLabels = .error e) ∨
    (∃ cs rl e, sc.changes = .ok cs ∧ required oc cs ≠ ∅ ∧ sc.repoLabels = .ok rl
      ∧ sc.issueLabels = .error e) ∨
    (∃ cs rl il, sc.changes = .ok cs ∧ required oc cs ≠ ∅ ∧ sc.repoLabels = .ok rl
      ∧ sc.issueLabels = .ok il) := by
  cases hc : sc.changes with
  | error e => exact Or.inl ⟨e, rfl⟩
  | ok cs =>
    by_cases hr : required oc cs = ∅
    · exact Or.inr (Or.inl ⟨cs, rfl, hr⟩)
    · cases hl : sc.repoLabels with
      | error e => exact Or.inr (Or.inr (Or.inl ⟨cs, e, rfl, hr, rfl⟩))
      | ok rl =>
        cases hi : sc.issueLabels with
        | error e => exact Or.inr (Or.inr (Or.inr (Or.inl ⟨cs, rl, e, rfl, hr, rfl, rfl⟩)))
        | ok il => exact Or.inr (Or.inr (Or.inr (Or.inr ⟨cs, rl, il, rfl, hr, rfl, rfl⟩)))

/-- In every run the labels of each pull request after the run are the labels before it,
together with, for the pull request of the event, the labels whose `AddLabel` call succeeded. -/
theorem handle_applied (sc : Script) (oc : ownersClient) (pre : PullRequestEvent) (w : World) :
    (handle (tracker sc) oc pre w).state.applied
      = (fun o r n => if o = pre.Repo.Owner.Login ∧ r = pre.Repo.Name ∧ n = pre.Number
          then w.applied o r n
            ∪ (succeededAdds (issued w (handle (tracker sc) oc pre w).state)).toFinset
          else w.applied o r n) := by
  rcases handle_paths sc oc with ⟨e, hc⟩ | ⟨cs, hc, hr⟩ | ⟨cs, e, hc, hr, hl⟩ |
    ⟨cs, rl, e, hc, hr, hl, hi⟩ | ⟨cs, rl, il, hc, hr, hl, hi⟩
  · rw [handle_changes_error sc oc pre w e hc, issued_append]
    funext o r n
    simp [succeededAdds, Call.succeeded]
  · rw [handle_no_required sc oc pre w cs hc hr, issued_append]
    funext o r n
    simp [succeededAdds, Call.succeeded]
  · rw [handle_repoLabels_error sc oc pre w cs hc hr e hl, issued_append]
    funext o r n
    simp [succeededAdds, Call.succeeded]
  · rw [handle_issueLabels_error sc oc pre w cs hc hr rl hl e hi, issued_append]
    funext o r n
    simp [succeededAdds, Call.succeeded]
  · exact (handle_reads_ok_summary sc oc pre w cs hc rl hl il hi).2.2

/-- In every run the calls received before the run are kept, and the calls of the run follow
them. -/
theorem handle_calls_extend (sc : Script) (oc : ownersClient) (pre : PullRequestEvent)
    (w : World) : ∃ X, (handle (tracker sc) oc pre w).state.calls = w.calls ++ X := by
  rcases handle_paths sc oc with ⟨e, hc⟩ | ⟨cs, hc, hr⟩ | ⟨cs, e, hc, hr, hl⟩ |
    ⟨cs, rl, e, hc, hr, hl, hi⟩ | ⟨cs, rl, il, hc, hr, hl, hi⟩
  · rw [handle_changes_error sc oc pre w e hc]
    exact ⟨_, rfl⟩
  · rw [handle_no_required sc oc pre w cs hc hr]
    exact ⟨_, rfl⟩
  · rw [handle_repoLabels_error sc oc pre w cs hc hr e hl]
    exact ⟨_, rfl⟩
  · rw [handle_issueLabels_error sc oc pre w cs hc hr rl hl e hi]
    exact ⟨_, rfl⟩
  · obtain ⟨E, _, h2, _⟩ := handle_reads_ok sc oc pre w cs hc hr rl hl il hi
    rw [List.append_assoc] at h2
    exact ⟨_, h2⟩

/-- In every run in which a read fails, no `AddLabel` call is issued. -/
theorem handle_no_adds_of_err (sc : Script) (oc : ownersClient) (pre : PullRequestEvent)
    (w : World) (h : (handle (tracker sc) oc pre w).err ≠ none) :
    addLabelCalls (issued w (handle (tracker sc) oc pre w).state) = [] := by
  rcases handle_paths sc oc with ⟨e, hc⟩ | ⟨cs, hc, hr⟩ | ⟨cs, e, hc, hr, hl⟩ |
    ⟨cs, rl, e, hc, hr, hl, hi⟩ | ⟨cs, rl, il, hc, hr, hl, hi⟩
  · rw [handle_changes_error sc oc pre w e hc, issued_append]
    simp [addLabelCalls, Call.added]
  · rw [handle_no_required sc oc pre w cs hc hr, issued_append]
    simp [addLabelCalls, Call.added]
  · rw [handle_repoLabels_error sc oc pre w cs hc hr e hl, issued_append]
    simp [addLabelCalls, Call.added]
  · rw [handle_issueLabels_error sc oc pre w cs hc hr rl hl e hi, issued_append]
    simp [addLabelCalls, Call.added]
  · exact absurd (handle_reads_ok_summary sc oc pre w cs hc rl hl il hi).1 h

theorem mem_addLabelCalls_iff (E : List Call) (l : String) :
    l ∈ addLabelCalls E ↔ l ∈ succeededAdds E ∨ l ∈ failedAdds E := by
  induction E with
  | nil => simp [addLabelCalls, succeededAdds, failedAdds]
  | cons c E ih =>
    simp only [addLabelCalls, succeededAdds, failedAdds] at ih ⊢
    cases c with
    | AddLabel o r n a e =>
      cases e with
      | none =>
        simp only [List.filterMap_cons, Call.added, Call.succeeded, Call.failed, List.mem_cons, ih]
        tauto
      | some err =>
        simp only [List.filterMap_cons, Call.added, Call.succeeded, Call.failed, List.mem_cons, ih]
        tauto
    | _ => simpa [List.filterMap_cons, Call.added, Call.succeeded, Call.failed] using ih

theorem not_failed_of_succeeded (E : List Call) (hnd : (addLabelCalls E).Nodup) (l : String)
    (hs : l ∈ succeededAdds E) : l ∉ failedAdds E := by
  induction E with
  | nil => simp [failedAdds]
  | cons c E ih =>
    cases c with
    | AddLabel o r n a e =>
      have hnd1 : a ∉ addLabelCalls E ∧ (addLabelCalls E).Nodup := by
        simpa [addLabelCalls, List.filterMap_cons, Call.added] using hnd
      have ha : a ∉ succeededAdds E ∧ a ∉ failedAdds E := by
        have := (mem_addLabelCalls_iff E a).not.mp hnd1.1
        tauto
      cases e with
      | none =>
        have hs1 : l = a ∨ l ∈ succeededAdds E := by
          simpa [succeededAdds, List.filterMap_cons, Call.succeeded] using hs
        have hgoal : l ∉ failedAdds E := by
          rcases hs1 with rfl | hs1
          · exact ha.2
          · exact ih hnd1.2 hs1
        simpa [failedAdds, List.filterMap_cons, Call.failed] using hgoal
      | some err =>
        have hs1 : l ∈ succeededAdds E := by
          simpa [succeededAdds, List.filterMap_cons, Call.succeeded] using hs
        have hne : l ≠ a := by
          rintro rfl
          exact ha.1 hs1
        have hgoal : l ∉ failedAdds E := ih hnd1.2 hs1
        simp only [failedAdds, List.filterMap_cons, Call.failed, List.mem_cons, not_or]
        exact ⟨hne, hgoal⟩
    | _ =>
      have hnd1 : (addLabelCalls E).Nodup := by
        simpa [addLabelCalls, List.filterMap_cons, Call.added] using hnd
      have hs1 : l ∈ succeededAdds E := by
        simpa [succeededAdds, List.filterMap_cons, Call.succeeded] using hs
      simpa [failedAdds, List.filterMap_cons, Call.failed] using ih hnd1 hs1

/-! ## The claims -/

/-- C1: for every changed-file list, resolver, label vocabulary and current label list, when
the three reads succeed the set of labels passed to `AddLabel` is exactly
`(required − currentLabels) ∩ validLabels`, whatever the `AddLabel` calls return; when
`required ⊆ currentLabels` no `AddLabel` call is issued. -/
theorem handle_adds_exactly_missing_valid (ow : Except GoError ownersClient)
    (cs : List PullRequestChange) (rl il : List Label) (add : World → String → Option GoError)
    (oc : ownersClient) (pre : PullRequestEvent) (w : World) :
    (addLabelCalls (issued w
        (handle (tracker ⟨ow, .ok cs, .ok rl, .ok il, add⟩) oc pre w).state)).toFinset
      = (required oc cs \ labelNames il) ∩ labelNames rl ∧
    (required oc cs ⊆ labelNames il →
      addLabelCalls (issued w
        (handle (tracker ⟨ow, .ok cs, .ok rl, .ok il, add⟩) oc pre w).state) = []) := by
  have h := (handle_reads_ok_summary ⟨ow, .ok cs, .ok rl, .ok il, add⟩ oc pre w cs rfl rl rfl
    il rfl).2.1
  rw [h]
  constructor
  · ext l
    simp [sets.List]
  · intro hsub
    rw [Finset.sdiff_eq_empty_iff_subset.mpr hsub]
    simp [sets.List]

/-- C2: when the resolved label set of the changed files is empty, `handle` returns nil and the
only call of the run is the single `GetPullRequestChanges` read: no `GetRepoLabels`, no
`GetIssueLabels` and no `AddLabel` call is issued. -/
theorem handle_short_circuit (ow : Except GoError ownersClient)
    (cs : List PullRequestChange) (rl il : Except GoError (List Label))
    (add : World → String → Option GoError) (oc : ownersClient) (pre : PullRequestEvent)
    (w : World) (hr : required oc cs = ∅) :
    (handle (tracker ⟨ow, .ok cs, rl, il, add⟩) oc pre w).err = none ∧
    issued w (handle (tracker ⟨ow, .ok cs, rl, il, add⟩) oc pre w).state
      = [.GetPullRequestChanges pre.Repo.Owner.Login pre.Repo.Name pre.Number] := by
  rw [handle_no_required ⟨ow, .ok cs, rl, il, add⟩ oc pre w cs rfl hr, issued_append]
  exact ⟨rfl, rfl⟩

/-- Scenario B: the changed file `main.go` resolves to no label. -/
theorem handle_short_circuit_witness :
    required ⟨fun _ => ∅⟩ [⟨"main.go"⟩] = ∅ ∧
    (handle (tracker ⟨.ok ⟨fun _ => ∅⟩, .ok [⟨"main.go"⟩], .ok [⟨"area/docs"⟩], .ok [],
        fun _ _ => none⟩) ⟨fun _ => ∅⟩ ⟨"opened", 7, ⟨⟨"main"⟩⟩, ⟨⟨"org"⟩, "repo"⟩⟩
        ⟨fun _ _ _ => ∅, []⟩).err = none ∧
    issued ⟨fun _ _ _ => ∅, []⟩
      (handle (tracker ⟨.ok ⟨fun _ => ∅⟩, .ok [⟨"main.go"⟩], .ok [⟨"area/docs"⟩], .ok [],
        fun _ _ => none⟩) ⟨fun _ => ∅⟩ ⟨"opened", 7, ⟨⟨"main"⟩⟩, ⟨⟨"org"⟩, "repo"⟩⟩
        ⟨fun _ _ _ => ∅, []⟩).state
      = [.GetPullRequestChanges "org" "repo" 7] :=
  ⟨by simp [required], handle_short_circuit _ _ _ _ _ _ _ _ (by simp [required])⟩

/-- C3: when the three reads succeed, for every assignment of success or failure to the
`AddLabel` calls, `AddLabel` is attempted for the pull request of the event with every label of
`(required − currentLabels) ∩ validLabels`, and `handle` returns nil. -/
theorem handle_attempts_every_label (ow : Except GoError ownersClient)
    (cs : List PullRequestChange) (rl il : List Label) (add : World → String → Option GoError)
    (oc : ownersClient) (pre : PullRequestEvent) (w : World) :
    (∀ l ∈ (required oc cs \ labelNames il) ∩ labelNames rl,
      ∃ e, Call.AddLabel pre.Repo.Owner.Login pre.Repo.Name pre.Number l e
        ∈ issued w (handle (tracker ⟨ow, .ok cs, .ok rl, .ok il, add⟩) oc pre w).state) ∧
    (handle (tracker ⟨ow, .ok cs, .ok rl, .ok il, add⟩) oc pre w).err = none := by
  refine ⟨?_, (handle_reads_ok_summary ⟨ow, .ok cs, .ok rl, .ok il, add⟩ oc pre w cs rfl rl rfl
    il rfl).1⟩
  intro l hl
  have hr : required oc cs ≠ ∅ := by
    rintro h
    simp [h] at hl
  obtain ⟨E, _, h2, h3, h4, _, _⟩ :=
    handle_reads_ok ⟨ow, .ok cs, .ok rl, .ok il, add⟩ oc pre w cs rfl hr rl rfl il rfl
  rw [List.append_assoc] at h2
  rw [issued_of_calls_eq w _ _ h2]
  have hmem : l ∈ addLabelCalls E := by
    rw [h3]
    simpa [sets.List] using hl
  obtain ⟨c, hc, hcl⟩ := List.mem_filterMap.mp hmem
  obtain ⟨l1, e, rfl⟩ := h4 c hc
  simp only [Call.added, Option.some.injEq] at hcl
  subst hcl
  exact ⟨e, List.mem_append_right _ hc⟩

/-- C4: in every run of `handle`, whatever the reads and the `AddLabel` calls return, the labels
of every pull request after the run include the labels it had before the run. -/
theorem handle_never_removes (sc : Script) (oc : ownersClient) (pre : PullRequestEvent)
    (w : World) (o r : String) (n : Int) :
    w.applied o r n ⊆ (handle (tracker sc) oc pre w).state.applied o r n := by
  rw [handle_applied sc oc pre w]
  by_cases hk : o = pre.Repo.Owner.Login ∧ r = pre.Repo.Name ∧ n = pre.Number
  · simp only [hk, and_self, if_true]
    exact Finset.subset_union_left
  · simp [hk]

/-- C5: in every run of `handle`, every label passed to `AddLabel` is one of the names returned
by `GetRepoLabels`; with the reads successful, no label of
`(required − currentLabels) − validLabels` is passed to `AddLabel`. -/
theorem handle_adds_only_valid (sc : Script) (oc : ownersClient) (pre : PullRequestEvent)
    (w : World) :
    (∀ l ∈ addLabelCalls (issued w (handle (tracker sc) oc pre w).state),
      ∃ rl, sc.repoLabels = .ok rl ∧ l ∈ labelNames rl) ∧
    (∀ cs rl il, sc.changes = .ok cs → sc.repoLabels = .ok rl → sc.issueLabels = .ok il →
      ∀ l ∈ (required oc cs \ labelNames il) \ labelNames rl,
        l ∉ addLabelCalls (issued w (handle (tracker sc) oc pre w).state)) := by
  constructor
  · intro l hl
    by_cases herr : (handle (tracker sc) oc pre w).err = none
    · rcases handle_paths sc oc with ⟨e, hc⟩ | ⟨cs, hc, hr⟩ | ⟨cs, e, hc, hr, hl1⟩ |
        ⟨cs, rl, e, hc, hr, hl1, hi⟩ | ⟨cs, rl, il, hc, hr, hl1, hi⟩
      · rw [handle_changes_error sc oc pre w e hc] at herr
        simp at herr
      · rw [handle_no_required sc oc pre w cs hc hr, issued_append] at hl
        simp [addLabelCalls, Call.added] at hl
      · rw [handle_repoLabels_error sc oc pre w cs hc hr e hl1] at herr
        simp at herr
      · rw [handle_issueLabels_error sc oc pre w cs hc hr rl hl1 e hi] at herr
        simp at herr
      · rw [(handle_reads_ok_summary sc oc pre w cs hc rl hl1 il hi).2.1] at hl
        exact ⟨rl, hl1, by simpa using (List.mem_filter.mp hl).2⟩
    · rw [handle_no_adds_of_err sc oc pre w herr] at hl
      simp at hl
  · intro cs rl il hc hl1 hi l hl
    rw [(handle_reads_ok_summary sc oc pre w cs hc rl hl1 il hi).2.1]
    intro hmem
    have := (List.mem_filter.mp hmem).2
    simp only [decide_eq_true_eq] at this
    exact (Finset.mem_sdiff.mp hl).2 this

/-- C6, as stated, fails: the only `AddLabel` call of the first run fails, so the current
labels of the second run are those of the first run together with no label, and the second run
issues the `AddLabel` call again. -/
theorem second_run_retries_failed_add :
    labelNames [] = labelNames [] ∪ (succeededAdds (issued ⟨fun _ _ _ => ∅, []⟩
      (handle (tracker ⟨.ok ⟨fun _ => {"area/docs"}⟩, .ok [⟨"docs/readme.md"⟩],
          .ok [⟨"area/docs"⟩], .ok [], fun _ _ => some (.errorString "boom")⟩)
        ⟨fun _ => {"area/docs"}⟩ ⟨"opened", 7, ⟨⟨"main"⟩⟩, ⟨⟨"org"⟩, "repo"⟩⟩
        ⟨fun _ _ _ => ∅, []⟩).state)).toFinset ∧
    addLabelCalls (issued ⟨fun _ _ _ => ∅, []⟩
      (handle (tracker ⟨.ok ⟨fun _ => {"area/docs"}⟩, .ok [⟨"docs/readme.md"⟩],
          .ok [⟨"area/docs"⟩], .ok [], fun _ _ => none⟩)
        ⟨fun _ => {"area/docs"}⟩ ⟨"opened", 7, ⟨⟨"main"⟩⟩, ⟨⟨"org"⟩, "repo"⟩⟩
        ⟨fun _ _ _ => ∅, []⟩).state) = ["area/docs"] := by
  constructor
  · simp [handle, tracker, addStep, sets.List, issued, succeededAdds, Call.succeeded, labelNames]
  · simp [handle, tracker, addStep, sets.List, issued, addLabelCalls, Call.added, labelNames]

/-- C6, amended: for a first and a second run with the same changed files, resolver and
vocabulary and successful reads, where the current labels of the second run are those of the
first run together with exactly the labels whose `AddLabel` call succeeded in the first run, the
second run passes to `AddLabel` exactly the labels whose `AddLabel` call failed in the first
run; it issues no `AddLabel` call if and only if no `AddLabel` call of the first run failed. -/
theorem second_run_adds_failed_only (ow ow2 : Except GoError ownersClient)
    (cs : List PullRequestChange) (rl il il2 : List Label)
    (add add2 : World → String → Option GoError) (oc : ownersClient)
    (pre pre2 : PullRequestEvent) (w w2 : World)
    (hcur : labelNames il2 = labelNames il ∪ (succeededAdds (issued w
      (handle (tracker ⟨ow, .ok cs, .ok rl, .ok il, add⟩) oc pre w).state)).toFinset) :
    (addLabelCalls (issued w2
        (handle (tracker ⟨ow2, .ok cs, .ok rl, .ok il2, add2⟩) oc pre2 w2).state)).toFinset
      = (failedAdds (issued w
        (handle (tracker ⟨ow, .ok cs, .ok rl, .ok il, add⟩) oc pre w).state)).toFinset ∧
    (addLabelCalls (issued w2
        (handle (tracker ⟨ow2, .ok cs, .ok rl, .ok il2, add2⟩) oc pre2 w2).state) = [] ↔
      failedAdds (issued w
        (handle (tracker ⟨ow, .ok cs, .ok rl, .ok il, add⟩) oc pre w).state) = []) := by
  have h1 := (handle_reads_ok_summary ⟨ow, .ok cs, .ok rl, .ok il, add⟩ oc pre w cs rfl rl rfl
    il rfl).2.1
  have h2 := (handle_reads_ok_summary ⟨ow2, .ok cs, .ok rl, .ok il2, add2⟩ oc pre2 w2 cs rfl rl
    rfl il2 rfl).2.1
  have hnd : (addLabelCalls (issued w
      (handle (tracker ⟨ow, .ok cs, .ok rl, .ok il, add⟩) oc pre w).state)).Nodup := by
    rw [h1]
    exact (Finset.sort_nodup _ _).filter _
  have hset : ∀ l, l ∈ addLabelCalls (issued w2
        (handle (tracker ⟨ow2, .ok cs, .ok rl, .ok il2, add2⟩) oc pre2 w2).state) ↔
      l ∈ failedAdds (issued w
        (handle (tracker ⟨ow, .ok cs, .ok rl, .ok il, add⟩) oc pre w).state) := by
    intro l
    have hmem := mem_addLabelCalls_iff (issued w
      (handle (tracker ⟨ow, .ok cs, .ok rl, .ok il, add⟩) oc pre w).state) l
    have hdis := not_failed_of_succeeded (issued w
      (handle (tracker ⟨ow, .ok cs, .ok rl, .ok il, add⟩) oc pre w).state) hnd l
    have h1l : l ∈ addLabelCalls (issued w
        (handle (tracker ⟨ow, .ok cs, .ok rl, .ok il, add⟩) oc pre w).state) ↔
        (l ∈ required oc cs ∧ l ∉ labelNames il) ∧ l ∈ labelNames rl := by
      rw [h1]; simp [sets.List]
    have h2l : l ∈ addLabelCalls (issued w2
        (handle (tracker ⟨ow2, .ok cs, .ok rl, .ok il2, add2⟩) oc pre2 w2).state) ↔
        (l ∈ required oc cs ∧ ¬ (l ∈ labelNames il ∨ l ∈ succeededAdds (issued w
          (handle (tracker ⟨ow, .ok cs, .ok rl, .ok il, add⟩) oc pre w).state)))
          ∧ l ∈ labelNames rl := by
      rw [h2, hcur]; simp [sets.List]
    rw [h2l]
    rw [h1l] at hmem
    tauto
  constructor
  · ext l
    simpa using hset l
  · constructor
    · intro h
      apply List.eq_nil_iff_forall_not_mem.mpr
      intro l hl
      have := (hset l).mpr hl
      rw [h] at this
      simp at this
    · intro h
      apply List.eq_nil_iff_forall_not_mem.mpr
      intro l hl
      have := (hset l).mp hl
      rw [h] at this
      simp at this

/-- The first run adds `area/docs` with success; the second run starts with it applied. -/
theorem second_run_adds_failed_only_witness :
    labelNames [⟨"area/docs"⟩] = labelNames [] ∪ (succeededAdds (issued ⟨fun _ _ _ => ∅, []⟩
      (handle (tracker ⟨.ok ⟨fun _ => {"area/docs"}⟩, .ok [⟨"docs/readme.md"⟩],
          .ok [⟨"area/docs"⟩], .ok [], fun _ _ => none⟩)
        ⟨fun _ => {"area/docs"}⟩ ⟨"opened", 7, ⟨⟨"main"⟩⟩, ⟨⟨"org"⟩, "repo"⟩⟩
        ⟨fun _ _ _ => ∅, []⟩).state)).toFinset ∧
    (addLabelCalls (issued ⟨fun _ _ _ => ∅, []⟩
        (handle (tracker ⟨.ok ⟨fun _ => {"area/docs"}⟩, .ok [⟨"docs/readme.md"⟩],
            .ok [⟨"area/docs"⟩], .ok [⟨"area/docs"⟩], fun _ _ => none⟩)
          ⟨fun _ => {"area/docs"}⟩ ⟨"opened", 7, ⟨⟨"main"⟩⟩, ⟨⟨"org"⟩, "repo"⟩⟩
          ⟨fun _ _ _ => ∅, []⟩).state)).toFinset
      = (failedAdds (issued ⟨fun _ _ _ => ∅, []⟩
        (handle (tracker ⟨.ok ⟨fun _ => {"area/docs"}⟩, .ok [⟨"docs/readme.md"⟩],
            .ok [⟨"area/docs"⟩], .ok [], fun _ _ => none⟩)
          ⟨fun _ => {"area/docs"}⟩ ⟨"opened", 7, ⟨⟨"main"⟩⟩, ⟨⟨"org"⟩, "repo"⟩⟩
          ⟨fun _ _ _ => ∅, []⟩).state)).toFinset ∧
    (addLabelCalls (issued ⟨fun _ _ _ => ∅, []⟩
        (handle (tracker ⟨.ok ⟨fun _ => {"area/docs"}⟩, .ok [⟨"docs/readme.md"⟩],
            .ok [⟨"area/docs"⟩], .ok [⟨"area/docs"⟩], fun _ _ => none⟩)
          ⟨fun _ => {"area/docs"}⟩ ⟨"opened", 7, ⟨⟨"main"⟩⟩, ⟨⟨"org"⟩, "repo"⟩⟩
          ⟨fun _ _ _ => ∅, []⟩).state) = [] ↔
      failedAdds (issued ⟨fun _ _ _ => ∅, []⟩
        (handle (tracker ⟨.ok ⟨fun _ => {"area/docs"}⟩, .ok [⟨"docs/readme.md"⟩],
            .ok [⟨"area/docs"⟩], .ok [], fun _ _ => none⟩)
          ⟨fun _ => {"area/docs"}⟩ ⟨"opened", 7, ⟨⟨"main"⟩⟩, ⟨⟨"org"⟩, "repo"⟩⟩
          ⟨fun _ _ _ => ∅, []⟩).state) = []) :=
  ⟨by simp [handle, tracker, addStep, sets.List, issued, succeededAdds, Call.succeeded,
      labelNames],
    second_run_adds_failed_only _ _ _ _ _ _ _ _ _ _ _ _ _
      (by simp [handle, tracker, addStep, sets.List, issued, succeededAdds, Call.succeeded,
        labelNames])⟩

/-- C7: `handle` returns an error exactly when `GetPullRequestChanges` fails, or some label is
required and `GetRepoLabels` or `GetIssueLabels` fails; the error of the changed-files read is
returned wrapped (a new error whose message is `error getting PR changes: ` followed by the
message of the read error, and which wraps the read error), the errors of the two label reads
are returned as they are; and in a run that returns an error no `AddLabel` call is issued. -/
theorem handle_error_cases (sc : Script) (oc : ownersClient) (pre : PullRequestEvent)
    (w : World) :
    ((handle (tracker sc) oc pre w).err ≠ none ↔
      (∃ e, sc.changes = .error e) ∨
      (∃ cs, sc.changes = .ok cs ∧ required oc cs ≠ ∅ ∧
        ((∃ e, sc.repoLabels = .error e) ∨ (∃ e, sc.issueLabels = .error e)))) ∧
    (∀ e, sc.changes = .error e →
      (handle (tracker sc) oc pre w).err
        = some (.wrapError ("error getting PR changes: " ++ e.Error) e)) ∧
    (∀ cs e, sc.changes = .ok cs → required oc cs ≠ ∅ → sc.repoLabels = .error e →
      (handle (tracker sc) oc pre w).err = some e) ∧
    (∀ cs rl e, sc.changes = .ok cs → required oc cs ≠ ∅ → sc.repoLabels = .ok rl →
      sc.issueLabels = .error e → (handle (tracker sc) oc pre w).err = some e) ∧
    ((handle (tracker sc) oc pre w).err ≠ none →
      addLabelCalls (issued w (handle (tracker sc) oc pre w).state) = []) := by
  refine ⟨?_, ?_, ?_, ?_, handle_no_adds_of_err sc oc pre w⟩
  · rcases handle_paths sc oc with ⟨e, hc⟩ | ⟨cs, hc, hr⟩ | ⟨cs, e, hc, hr, hl⟩ |
      ⟨cs, rl, e, hc, hr, hl, hi⟩ | ⟨cs, rl, il, hc, hr, hl, hi⟩
    · rw [handle_changes_error sc oc pre w e hc]
      simp [hc]
    · rw [handle_no_required sc oc pre w cs hc hr]
      simp [hc, hr]
    · rw [handle_repoLabels_error sc oc pre w cs hc hr e hl]
      simp [hc, hr, hl]
    · rw [handle_issueLabels_error sc oc pre w cs hc hr rl hl e hi]
      simp [hc, hr, hi]
    · rw [(handle_reads_ok_summary sc oc pre w cs hc rl hl il hi).1]
      simp [hc, hl, hi]
  · intro e hc
    rw [handle_changes_error sc oc pre w e hc]
    rfl
  · intro cs e hc hr hl
    rw [handle_repoLabels_error sc oc pre w cs hc hr e hl]
  · intro cs rl e hc hr hl hi
    rw [handle_issueLabels_error sc oc pre w cs hc hr rl hl e hi]

/-- C8: for an event whose action is opened, reopened or synchronize, when `LoadRepoOwners`
returns an error `handlePullRequest` returns that error wrapped, and the only call of the run is
the `LoadRepoOwners` call: no tracker call is issued. -/
theorem handlePullRequest_load_error (e : GoError)
    (ch : Except GoError (List PullRequestChange)) (rl il : Except GoError (List Label))
    (add : World → String → Option GoError) (pre : PullRequestEvent) (w : World)
    (ha : pre.Action = PullRequestActionOpened ∨ pre.Action = PullRequestActionReopened
      ∨ pre.Action = PullRequestActionSynchronize) :
    (handlePullRequest (agent ⟨.error e, ch, rl, il, add⟩) pre w).err
      = some (Errorf_w "error loading RepoOwners: " e) ∧
    issued w (handlePullRequest (agent ⟨.error e, ch, rl, il, add⟩) pre w).state
      = [.LoadRepoOwners pre.Repo.Owner.Login pre.Repo.Name pre.PullRequest.Base.Ref] := by
  have hn : ¬ (pre.Action ≠ PullRequestActionOpened ∧ pre.Action ≠ PullRequestActionReopened
      ∧ pre.Action ≠ PullRequestActionSynchronize) := by
    rintro ⟨h1, h2, h3⟩
    rcases ha with h | h | h
    · exact h1 h
    · exact h2 h
    · exact h3 h
  simp only [handlePullRequest, hn, if_false, agent, loader]
  exact ⟨trivial, issued_append w _ _⟩

/-- A synchronize event whose ownership data fails to load. -/
theorem handlePullRequest_load_error_witness :
    (handlePullRequest (agent ⟨.error (.errorString "clone failed"), .ok [⟨"main.go"⟩],
        .ok [⟨"area/docs"⟩], .ok [], fun _ _ => none⟩)
        ⟨"synchronize", 7, ⟨⟨"main"⟩⟩, ⟨⟨"org"⟩, "repo"⟩⟩ ⟨fun _ _ _ => ∅, []⟩).err
      = some (Errorf_w "error loading RepoOwners: " (.errorString "clone failed")) ∧
    issued ⟨fun _ _ _ => ∅, []⟩
      (handlePullRequest (agent ⟨.error (.errorString "clone failed"), .ok [⟨"main.go"⟩],
        .ok [⟨"area/docs"⟩], .ok [], fun _ _ => none⟩)
        ⟨"synchronize", 7, ⟨⟨"main"⟩⟩, ⟨⟨"org"⟩, "repo"⟩⟩ ⟨fun _ _ _ => ∅, []⟩).state
      = [.LoadRepoOwners "org" "repo" "main"] :=
  handlePullRequest_load_error _ _ _ _ _ ⟨"synchronize", 7, ⟨⟨"main"⟩⟩, ⟨⟨"org"⟩, "repo"⟩⟩ _
    (Or.inr (Or.inr rfl))

/-- C9: for an event whose action is none of opened, reopened, synchronize,
`handlePullRequest` returns nil and leaves the remote side as it was: neither `LoadRepoOwners`
nor any tracker call is issued. For the three accepted actions it calls `LoadRepoOwners` first
and, when that succeeds, continues as `handle` with the loaded owners client. -/
theorem handlePullRequest_dispatch (sc : Script) (pre : PullRequestEvent) (w : World) :
    (pre.Action ≠ PullRequestActionOpened ∧ pre.Action ≠ PullRequestActionReopened
        ∧ pre.Action ≠ PullRequestActionSynchronize →
      (handlePullRequest (agent sc) pre w).err = none ∧
      (handlePullRequest (agent sc) pre w).log = [] ∧
      (handlePullRequest (agent sc) pre w).state = w ∧
      issued w (handlePullRequest (agent sc) pre w).state = []) ∧
    (pre.Action = PullRequestActionOpened ∨ pre.Action = PullRequestActionReopened
        ∨ pre.Action = PullRequestActionSynchronize →
      (∃ rest, issued w (handlePullRequest (agent sc) pre w).state
        = .LoadRepoOwners pre.Repo.Owner.Login pre.Repo.Name pre.PullRequest.Base.Ref :: rest) ∧
      (∀ oc, sc.owners = .ok oc →
        handlePullRequest (agent sc) pre w
          = handle (tracker sc) oc pre ⟨w.applied, w.calls ++
              [.LoadRepoOwners pre.Repo.Owner.Login pre.Repo.Name pre.PullRequest.Base.Ref]⟩))
    := by
  constructor
  · intro h
    simp [handlePullRequest, h, issued]
  · intro ha
    have hn : ¬ (pre.Action ≠ PullRequestActionOpened ∧ pre.Action ≠ PullRequestActionReopened
        ∧ pre.Action ≠ PullRequestActionSynchronize) := by
      rintro ⟨h1, h2, h3⟩
      rcases ha with h | h | h
      · exact h1 h
      · exact h2 h
      · exact h3 h
    constructor
    · cases ho : sc.owners with
      | error e =>
        refine ⟨[], ?_⟩
        simp only [handlePullRequest, hn, if_false, agent, loader, ho]
        exact issued_append w _ _
      | ok oc =>
        simp only [handlePullRequest, hn, if_false, agent, loader, ho]
        obtain ⟨X, hX⟩ := handle_calls_extend sc oc pre ⟨w.applied, w.calls ++
          [.LoadRepoOwners pre.Repo.Owner.Login pre.Repo.Name pre.PullRequest.Base.Ref]⟩
        refine ⟨X, issued_of_calls_eq w _ _ ?_⟩
        rw [hX]
        simp
    · intro oc ho
      simp only [handlePullRequest, hn, if_false, agent, loader, ho]

/-- An event for a closed pull request is ignored; an event for an opened one is handled. -/
theorem handlePullRequest_dispatch_witness :
    ((handlePullRequest (agent ⟨.ok ⟨fun _ => {"area/docs"}⟩, .ok [⟨"docs/readme.md"⟩],
        .ok [⟨"area/docs"⟩], .ok [], fun _ _ => none⟩)
        ⟨"closed", 7, ⟨⟨"main"⟩⟩, ⟨⟨"org"⟩, "repo"⟩⟩ ⟨fun _ _ _ => ∅, []⟩).err = none ∧
      (handlePullRequest (agent ⟨.ok ⟨fun _ => {"area/docs"}⟩, .ok [⟨"docs/readme.md"⟩],
        .ok [⟨"area/docs"⟩], .ok [], fun _ _ => none⟩)
        ⟨"closed", 7, ⟨⟨"main"⟩⟩, ⟨⟨"org"⟩, "repo"⟩⟩ ⟨fun _ _ _ => ∅, []⟩).log = [] ∧
      (handlePullRequest (agent ⟨.ok ⟨fun _ => {"area/docs"}⟩, .ok [⟨"docs/readme.md"⟩],
        .ok [⟨"area/docs"⟩], .ok [], fun _ _ => none⟩)
        ⟨"closed", 7, ⟨⟨"main"⟩⟩, ⟨⟨"org"⟩, "repo"⟩⟩ ⟨fun _ _ _ => ∅, []⟩).state
        = ⟨fun _ _ _ => ∅, []⟩ ∧
      issued ⟨fun _ _ _ => ∅, []⟩
        (handlePullRequest (agent ⟨.ok ⟨fun _ => {"area/docs"}⟩, .ok [⟨"docs/readme.md"⟩],
          .ok [⟨"area/docs"⟩], .ok [], fun _ _ => none⟩)
          ⟨"closed", 7, ⟨⟨"main"⟩⟩, ⟨⟨"org"⟩, "repo"⟩⟩ ⟨fun _ _ _ => ∅, []⟩).state = []) ∧
    handlePullRequest (agent ⟨.ok ⟨fun _ => {"area/docs"}⟩, .ok [⟨"docs/readme.md"⟩],
        .ok [⟨"area/docs"⟩], .ok [], fun _ _ => none⟩)
        ⟨"opened", 7, ⟨⟨"main"⟩⟩, ⟨⟨"org"⟩, "repo"⟩⟩ ⟨fun _ _ _ => ∅, []⟩
      = handle (tracker ⟨.ok ⟨fun _ => {"area/docs"}⟩, .ok [⟨"docs/readme.md"⟩],
          .ok [⟨"area/docs"⟩], .ok [], fun _ _ => none⟩) ⟨fun _ => {"area/docs"}⟩
          ⟨"opened", 7, ⟨⟨"main"⟩⟩, ⟨⟨"org"⟩, "repo"⟩⟩
          ⟨fun _ _ _ => ∅, [] ++ [.LoadRepoOwners "org" "repo" "main"]⟩ :=
  ⟨(handlePullRequest_dispatch _ ⟨"closed", 7, ⟨⟨"main"⟩⟩, ⟨⟨"org"⟩, "repo"⟩⟩ _).1 (by decide),
    ((handlePullRequest_dispatch _ ⟨"opened", 7, ⟨⟨"main"⟩⟩, ⟨⟨"org"⟩, "repo"⟩⟩
      ⟨fun _ _ _ => ∅, []⟩).2 (Or.inl rfl)).2 _ rfl⟩

/-- C10: with the reads successful, after the run (i) every label of
`(required − currentLabels) ∩ validLabels` whose `AddLabel` call succeeded is on the pull request
of the event, and (ii) for every label outside `required` and every pull request, the label is
on the pull request after the run exactly when it was on it before the run. -/
theorem handle_result_guarantees (ow : Except GoError ownersClient)
    (cs : List PullRequestChange) (rl il : List Label) (add : World → String → Option GoError)
    (oc : ownersClient) (pre : PullRequestEvent) (w : World) :
    (∀ l ∈ (required oc cs \ labelNames il) ∩ labelNames rl,
      l ∈ succeededAdds (issued w
        (handle (tracker ⟨ow, .ok cs, .ok rl, .ok il, add⟩) oc pre w).state) →
      l ∈ (handle (tracker ⟨ow, .ok cs, .ok rl, .ok il, add⟩) oc pre w).state.applied
        pre.Repo.Owner.Login pre.Repo.Name pre.Number) ∧
    (∀ l, l ∉ required oc cs → ∀ o r n,
      (l ∈ (handle (tracker ⟨ow, .ok cs, .ok rl, .ok il, add⟩) oc pre w).state.applied o r n
        ↔ l ∈ w.applied o r n)) := by
  have happ := handle_applied ⟨ow, .ok cs, .ok rl, .ok il, add⟩ oc pre w
  have hadds := (handle_reads_ok_summary ⟨ow, .ok cs, .ok rl, .ok il, add⟩ oc pre w cs rfl rl
    rfl il rfl).2.1
  constructor
  · intro l _ hs
    rw [happ]
    simp only [and_self, if_true, Finset.mem_union, List.mem_toFinset]
    exact Or.inr hs
  · intro l hl o r n
    have hns : l ∉ succeededAdds (issued w
        (handle (tracker ⟨ow, .ok cs, .ok rl, .ok il, add⟩) oc pre w).state) := by
      intro hs
      have hmem := (mem_addLabelCalls_iff _ l).mpr (Or.inl hs)
      rw [hadds] at hmem
      have := (List.mem_filter.mp hmem).1
      simp only [sets.List, Finset.mem_sort, Finset.mem_sdiff] at this
      exact hl this.1
    rw [happ]
    by_cases hk : o = pre.Repo.Owner.Login ∧ r = pre.Repo.Name ∧ n = pre.Number
    · simp only [hk, and_self, if_true, Finset.mem_union, List.mem_toFinset]
      tauto
    · simp only [hk, if_false]

/-! ## The log of a run -/

theorem reportedNonexistent_logged (E : List Call) :
    reportedNonexistent (E.filterMap Call.logged) = [] := by
  induction E with
  | nil => rfl
  | cons c E ih =>
    simp only [reportedNonexistent] at ih ⊢
    cases c with
    | AddLabel o r n a e =>
      cases e with
      | none => simpa [List.filterMap_cons, Call.logged] using ih
      | some err => simpa [List.filterMap_cons, Call.logged, LogEntry.reported] using ih
    | _ => simpa [List.filterMap_cons, Call.logged] using ih

theorem warnedNonexistent_logged (E : List Call) :
    warnedNonexistent (E.filterMap Call.logged) = false := by
  induction E with
  | nil => rfl
  | cons c E ih =>
    simp only [warnedNonexistent] at ih ⊢
    cases c with
    | AddLabel o r n a e =>
      cases e with
      | none => simpa [List.filterMap_cons, Call.logged] using ih
      | some err =>
        simpa [List.filterMap_cons, Call.logged, LogEntry.isNonexistentWarning] using ih
    | _ => simpa [List.filterMap_cons, Call.logged] using ih

/-- With the three reads successful, the log of the run holds one entry for each failed
`AddLabel` call, in call order, followed by the warning with the ascending list of the missing
labels outside the vocabulary when there is such a label. -/
theorem handle_log_reads_ok (sc : Script) (oc : ownersClient) (pre : PullRequestEvent)
    (w : World) (cs : List PullRequestChange) (hc : sc.changes = .ok cs)
    (rl : List Label) (hl : sc.repoLabels = .ok rl)
    (il : List Label) (hi : sc.issueLabels = .ok il) :
    (handle (tracker sc) oc pre w).log
      = (issued w (handle (tracker sc) oc pre w).state).filterMap Call.logged ++
        (if (required oc cs \ labelNames il) \ labelNames rl = ∅ then []
         else [.Warnf "Unable to add nonexistent labels: %q"
            (sets.List ((required oc cs \ labelNames il) \ labelNames rl))]) := by
  by_cases hr : required oc cs = ∅
  · rw [handle_no_required sc oc pre w cs hc hr, issued_append]
    simp [Call.logged, hr]
  · obtain ⟨E, _, h2, _, _, _, h6⟩ := handle_reads_ok sc oc pre w cs hc hr rl hl il hi
    rw [List.append_assoc] at h2
    rw [issued_of_calls_eq w _ _ h2, h6]
    simp [List.filterMap_cons, Call.logged]

/-- With the three reads successful, the labels reported as nonexistent are the ascending list
of the missing labels outside the vocabulary, and the warning is logged exactly when there is
such a label. -/
theorem handle_reported_reads_ok (sc : Script) (oc : ownersClient) (pre : PullRequestEvent)
    (w : World) (cs : List PullRequestChange) (hc : sc.changes = .ok cs)
    (rl : List Label) (hl : sc.repoLabels = .ok rl)
    (il : List Label) (hi : sc.issueLabels = .ok il) :
    reportedNonexistent (handle (tracker sc) oc pre w).log
      = sets.List ((required oc cs \ labelNames il) \ labelNames rl) ∧
    (warnedNonexistent (handle (tracker sc) oc pre w).log = true ↔
      (required oc cs \ labelNames il) \ labelNames rl ≠ ∅) := by
  rw [handle_log_reads_ok sc oc pre w cs hc rl hl il hi]
  have h1 := reportedNonexistent_logged (issued w (handle (tracker sc) oc pre w).state)
  have h2 := warnedNonexistent_logged (issued w (handle (tracker sc) oc pre w).state)
  simp only [reportedNonexistent, warnedNonexistent] at h1 h2 ⊢
  by_cases hz : (required oc cs \ labelNames il) \ labelNames rl = ∅
  · simp [hz, h1, h2, sets.List]
  · simp [hz, h1, h2, LogEntry.reported, LogEntry.isNonexistentWarning]

/-- C11: with the three reads successful, the set of labels reported as nonexistent is exactly
`(required − currentLabels) − validLabels`; it is disjoint from the set of labels passed to
`AddLabel` and together with it equals `required − currentLabels`; and the warning
`Unable to add nonexistent labels` is logged if and only if that set is non-empty. -/
theorem handle_reports_nonexistent (ow : Except GoError ownersClient)
    (cs : List PullRequestChange) (rl il : List Label) (add : World → String → Option GoError)
    (oc : ownersClient) (pre : PullRequestEvent) (w : World) :
    (reportedNonexistent
        (handle (tracker ⟨ow, .ok cs, .ok rl, .ok il, add⟩) oc pre w).log).toFinset
      = (required oc cs \ labelNames il) \ labelNames rl ∧
    Disjoint
      (reportedNonexistent
        (handle (tracker ⟨ow, .ok cs, .ok rl, .ok il, add⟩) oc pre w).log).toFinset
      (addLabelCalls (issued w
        (handle (tracker ⟨ow, .ok cs, .ok rl, .ok il, add⟩) oc pre w).state)).toFinset ∧
    (reportedNonexistent
        (handle (tracker ⟨ow, .ok cs, .ok rl, .ok il, add⟩) oc pre w).log).toFinset
      ∪ (addLabelCalls (issued w
        (handle (tracker ⟨ow, .ok cs, .ok rl, .ok il, add⟩) oc pre w).state)).toFinset
      = required oc cs \ labelNames il ∧
    (warnedNonexistent (handle (tracker ⟨ow, .ok cs, .ok rl, .ok il, add⟩) oc pre w).log = true
      ↔ (required oc cs \ labelNames il) \ labelNames rl ≠ ∅) := by
  obtain ⟨hrep, hwarn⟩ := handle_reported_reads_ok ⟨ow, .ok cs, .ok rl, .ok il, add⟩ oc pre w
    cs rfl rl rfl il rfl
  have hadds := (handle_reads_ok_summary ⟨ow, .ok cs, .ok rl, .ok il, add⟩ oc pre w cs rfl rl
    rfl il rfl).2.1
  rw [hrep, hadds]
  refine ⟨?_, ?_, ?_, hwarn⟩
  · ext l
    simp [sets.List]
  · rw [Finset.disjoint_left]
    intro l h1 h2
    simp only [sets.List, List.mem_toFinset, Finset.mem_sort, Finset.mem_sdiff, List.mem_filter,
      decide_eq_true_eq] at h1 h2
    exact h1.2 h2.2
  · ext l
    simp only [sets.List, Finset.mem_union, List.mem_toFinset, Finset.mem_sort,
      Finset.mem_sdiff, List.mem_filter, decide_eq_true_eq]
    tauto

/-- C12, as stated, fails: the required label `team/x` is not in the vocabulary, but it is
already among the current labels of the pull request, so it is not missing; the run logs
nothing, and no warning includes it. -/
theorem required_label_on_pull_request_not_reported :
    "team/x" ∈ required ⟨fun _ => {"team/x"}⟩ [⟨"docs/readme.md"⟩] ∧
    "team/x" ∉ labelNames [] ∧
    (handle (tracker ⟨.ok ⟨fun _ => {"team/x"}⟩, .ok [⟨"docs/readme.md"⟩], .ok [],
        .ok [⟨"team/x"⟩], fun _ _ => none⟩) ⟨fun _ => {"team/x"}⟩
        ⟨"opened", 7, ⟨⟨"main"⟩⟩, ⟨⟨"org"⟩, "repo"⟩⟩ ⟨fun _ _ _ => ∅, []⟩).log = [] ∧
    "team/x" ∉ reportedNonexistent
      (handle (tracker ⟨.ok ⟨fun _ => {"team/x"}⟩, .ok [⟨"docs/readme.md"⟩], .ok [],
        .ok [⟨"team/x"⟩], fun _ _ => none⟩) ⟨fun _ => {"team/x"}⟩
        ⟨"opened", 7, ⟨⟨"main"⟩⟩, ⟨⟨"org"⟩, "repo"⟩⟩ ⟨fun _ _ _ => ∅, []⟩).log := by
  have hlog : (handle (tracker ⟨.ok ⟨fun _ => {"team/x"}⟩, .ok [⟨"docs/readme.md"⟩], .ok [],
        .ok [⟨"team/x"⟩], fun _ _ => none⟩) ⟨fun _ => {"team/x"}⟩
        ⟨"opened", 7, ⟨⟨"main"⟩⟩, ⟨⟨"org"⟩, "repo"⟩⟩ ⟨fun _ _ _ => ∅, []⟩).log = [] := by
    simp [handle, tracker, addStep, sets.List]
  refine ⟨by simp [required], by simp [labelNames], hlog, ?_⟩
  rw [hlog]
  simp [reportedNonexistent]

/-- C12, amended: with the three reads successful, every label of `required` that is not in
the vocabulary is never passed to `AddLabel` and does not make `handle` return an error; when it
is not among the current labels of the pull request either, it is included in the logged
warning `Unable to add nonexistent labels`. -/
theorem handle_nonexistent_informational (ow : Except GoError ownersClient)
    (cs : List PullRequestChange) (rl il : List Label) (add : World → String → Option GoError)
    (oc : ownersClient) (pre : PullRequestEvent) (w : World) (l : String)
    (hreq : l ∈ required oc cs) (hval : l ∉ labelNames rl) :
    (l ∉ labelNames il →
      ∃ arg, LogEntry.Warnf "Unable to add nonexistent labels: %q" arg
          ∈ (handle (tracker ⟨ow, .ok cs, .ok rl, .ok il, add⟩) oc pre w).log ∧ l ∈ arg) ∧
    l ∉ addLabelCalls (issued w
      (handle (tracker ⟨ow, .ok cs, .ok rl, .ok il, add⟩) oc pre w).state) ∧
    (handle (tracker ⟨ow, .ok cs, .ok rl, .ok il, add⟩) oc pre w).err = none := by
  obtain ⟨herr, hadds, _⟩ := handle_reads_ok_summary ⟨ow, .ok cs, .ok rl, .ok il, add⟩ oc pre w
    cs rfl rl rfl il rfl
  refine ⟨?_, ?_, herr⟩
  · intro hcur
    have hmem : l ∈ (required oc cs \ labelNames il) \ labelNames rl := by
      simp [hreq, hcur, hval]
    have hne : (required oc cs \ labelNames il) \ labelNames rl ≠ ∅ :=
      Finset.ne_empty_of_mem hmem
    rw [handle_log_reads_ok ⟨ow, .ok cs, .ok rl, .ok il, add⟩ oc pre w cs rfl rl rfl il rfl]
    refine ⟨sets.List ((required oc cs \ labelNames il) \ labelNames rl), ?_, ?_⟩
    · simp [hne]
    · simpa [sets.List] using hmem
  · rw [hadds]
    intro hmem
    have := (List.mem_filter.mp hmem).2
    simp only [decide_eq_true_eq] at this
    exact hval this

/-- Scenario C: `team/x` is required, missing and not in the vocabulary. -/
theorem handle_nonexistent_informational_witness :
    "team/x" ∈ required ⟨fun _ => {"team/x"}⟩ [⟨"docs/readme.md"⟩] ∧
    "team/x" ∉ labelNames [⟨"area/docs"⟩] ∧
    ("team/x" ∉ labelNames [] →
      ∃ arg, LogEntry.Warnf "Unable to add nonexistent labels: %q" arg
          ∈ (handle (tracker ⟨.ok ⟨fun _ => {"team/x"}⟩, .ok [⟨"docs/readme.md"⟩],
            .ok [⟨"area/docs"⟩], .ok [], fun _ _ => none⟩) ⟨fun _ => {"team/x"}⟩
            ⟨"opened", 7, ⟨⟨"main"⟩⟩, ⟨⟨"org"⟩, "repo"⟩⟩ ⟨fun _ _ _ => ∅, []⟩).log
        ∧ "team/x" ∈ arg) ∧
    "team/x" ∉ addLabelCalls (issued ⟨fun _ _ _ => ∅, []⟩
      (handle (tracker ⟨.ok ⟨fun _ => {"team/x"}⟩, .ok [⟨"docs/readme.md"⟩],
        .ok [⟨"area/docs"⟩], .ok [], fun _ _ => none⟩) ⟨fun _ => {"team/x"}⟩
        ⟨"opened", 7, ⟨⟨"main"⟩⟩, ⟨⟨"org"⟩, "repo"⟩⟩ ⟨fun _ _ _ => ∅, []⟩).state) ∧
    (handle (tracker ⟨.ok ⟨fun _ => {"team/x"}⟩, .ok [⟨"docs/readme.md"⟩],
        .ok [⟨"area/docs"⟩], .ok [], fun _ _ => none⟩) ⟨fun _ => {"team/x"}⟩
        ⟨"opened", 7, ⟨⟨"main"⟩⟩, ⟨⟨"org"⟩, "repo"⟩⟩ ⟨fun _ _ _ => ∅, []⟩).err = none :=
  ⟨by simp [required], by simp [labelNames],
    handle_nonexistent_informational _ _ _ _ _ _ _ _ _ (by simp [required])
      (by simp [labelNames])⟩

/-! ## Order of the inputs and of the calls -/

theorem required_congr (oc : ownersClient) (cs cs2 : List PullRequestChange)
    (h : cs.Perm cs2 ∨ ∀ c, c ∈ cs ↔ c ∈ cs2) : required oc cs = required oc cs2 := by
  have hset : cs.toFinset = cs2.toFinset := by
    rcases h with h | h
    · exact List.toFinset_eq_of_perm _ _ h
    · ext c
      simpa using h c
  simp only [required, hset]

theorem labelNames_congr (ls ls2 : List Label) (h : ls.Perm ls2) :
    labelNames ls = labelNames ls2 := by
  simp only [labelNames]
  exact List.toFinset_eq_of_perm _ _ (h.map _)

theorem filter_sets_List (S V : Finset String) :
    (sets.List S).filter (fun l => decide (l ∈ V)) = sets.List (S ∩ V) := by
  apply List.eq_of_perm_of_sorted (r := (· ≤ ·))
  · apply List.perm_of_nodup_nodup_toFinset_eq
    · exact (Finset.sort_nodup _ _).filter _
    · exact Finset.sort_nodup _ _
    · ext l
      simp [sets.List]
  · exact (Finset.sort_sorted _ _).filter _
  · exact Finset.sort_sorted _ _

/-- C13: for two changed-file lists that are permutations of each other, or that have the same
entries with other repetitions, and the same resolver, label reads and `AddLabel` outcomes, the
two runs of `handle` end in the same outcome: the same returned error, the same log and the same
state of the tracker; so they issue the same sequence of `AddLabel` calls and report the same
nonexistent labels. -/
theorem handle_changes_order_irrelevant (ow : Except GoError ownersClient)
    (cs cs2 : List PullRequestChange) (rl il : Except GoError (List Label))
    (add : World → String → Option GoError) (oc : ownersClient) (pre : PullRequestEvent)
    (w : World) (h : cs.Perm cs2 ∨ ∀ c, c ∈ cs ↔ c ∈ cs2) :
    handle (tracker ⟨ow, .ok cs, rl, il, add⟩) oc pre w
      = handle (tracker ⟨ow, .ok cs2, rl, il, add⟩) oc pre w ∧
    addLabelCalls (issued w (handle (tracker ⟨ow, .ok cs, rl, il, add⟩) oc pre w).state)
      = addLabelCalls (issued w (handle (tracker ⟨ow, .ok cs2, rl, il, add⟩) oc pre w).state) ∧
    reportedNonexistent (handle (tracker ⟨ow, .ok cs, rl, il, add⟩) oc pre w).log
      = reportedNonexistent (handle (tracker ⟨ow, .ok cs2, rl, il, add⟩) oc pre w).log ∧
    (handle (tracker ⟨ow, .ok cs, rl, il, add⟩) oc pre w).err
      = (handle (tracker ⟨ow, .ok cs2, rl, il, add⟩) oc pre w).err := by
  have heq : handle (tracker ⟨ow, .ok cs, rl, il, add⟩) oc pre w
      = handle (tracker ⟨ow, .ok cs2, rl, il, add⟩) oc pre w := by
    simp only [handle, tracker_GetPullRequestChanges, foldl_union_required, Finset.empty_union,
      required_congr oc cs cs2 h]
    rfl
  rw [heq]
  exact ⟨rfl, rfl, rfl, rfl⟩

/-- Two changed-file lists with the same entries, in another order and with a repetition. -/
theorem handle_changes_order_irrelevant_witness :
    handle (tracker ⟨.ok ⟨fun _ => {"area/docs"}⟩, .ok [⟨"a.md"⟩, ⟨"b.md"⟩],
        .ok [⟨"area/docs"⟩], .ok [], fun _ _ => none⟩) ⟨fun _ => {"area/docs"}⟩
        ⟨"opened", 7, ⟨⟨"main"⟩⟩, ⟨⟨"org"⟩, "repo"⟩⟩ ⟨fun _ _ _ => ∅, []⟩
      = handle (tracker ⟨.ok ⟨fun _ => {"area/docs"}⟩, .ok [⟨"b.md"⟩, ⟨"a.md"⟩, ⟨"a.md"⟩],
        .ok [⟨"area/docs"⟩], .ok [], fun _ _ => none⟩) ⟨fun _ => {"area/docs"}⟩
        ⟨"opened", 7, ⟨⟨"main"⟩⟩, ⟨⟨"org"⟩, "repo"⟩⟩ ⟨fun _ _ _ => ∅, []⟩ :=
  (handle_changes_order_irrelevant _ [⟨"a.md"⟩, ⟨"b.md"⟩] [⟨"b.md"⟩, ⟨"a.md"⟩, ⟨"a.md"⟩] _ _ _
    _ _ _ (Or.inr (by intro c; simp only [List.mem_cons, List.mem_singleton]; tauto))).1

/-- C14: in every run of `handle` the sequence of labels passed to `AddLabel` is strictly
ascending in the order of strings, so no label is passed twice; with the reads successful it is
the ascending list of the set `(required − currentLabels) ∩ validLabels`, and it is the same for
every reordering of the changed files, of the repository labels and of the issue labels, and for
every outcome of the `AddLabel` calls. -/
theorem handle_adds_ascending (sc : Script) (oc : ownersClient) (pre : PullRequestEvent)
    (w : World) :
    List.Sorted (· < ·) (addLabelCalls (issued w (handle (tracker sc) oc pre w).state)) ∧
    (addLabelCalls (issued w (handle (tracker sc) oc pre w).state)).Nodup ∧
    (∀ cs rl il, sc.changes = .ok cs → sc.repoLabels = .ok rl → sc.issueLabels = .ok il →
      addLabelCalls (issued w (handle (tracker sc) oc pre w).state)
        = sets.List ((required oc cs \ labelNames il) ∩ labelNames rl) ∧
      ∀ ow2 cs2 rl2 il2 add2, cs.Perm cs2 → rl.Perm rl2 → il.Perm il2 →
        addLabelCalls (issued w
          (handle (tracker ⟨ow2, .ok cs2, .ok rl2, .ok il2, add2⟩) oc pre w).state)
          = addLabelCalls (issued w (handle (tracker sc) oc pre w).state)) := by
  have hsorted : List.Sorted (· < ·)
      (addLabelCalls (issued w (handle (tracker sc) oc pre w).state)) := by
    by_cases herr : (handle (tracker sc) oc pre w).err = none
    · rcases handle_paths sc oc with ⟨e, hc⟩ | ⟨cs, hc, hr⟩ | ⟨cs, e, hc, hr, hl1⟩ |
        ⟨cs, rl, e, hc, hr, hl1, hi⟩ | ⟨cs, rl, il, hc, hr, hl1, hi⟩
      · rw [handle_changes_error sc oc pre w e hc] at herr
        simp at herr
      · rw [handle_no_required sc oc pre w cs hc hr, issued_append]
        simp [addLabelCalls, Call.added]
      · rw [handle_repoLabels_error sc oc pre w cs hc hr e hl1] at herr
        simp at herr
      · rw [handle_issueLabels_error sc oc pre w cs hc hr rl hl1 e hi] at herr
        simp at herr
      · rw [(handle_reads_ok_summary sc oc pre w cs hc rl hl1 il hi).2.1]
        exact (Finset.sort_sorted_lt _).filter _
    · rw [handle_no_adds_of_err sc oc pre w herr]
      exact List.sorted_nil
  refine ⟨hsorted, hsorted.nodup, ?_⟩
  intro cs rl il hc hl hi
  have h1 := (handle_reads_ok_summary sc oc pre w cs hc rl hl il hi).2.1
  rw [filter_sets_List] at h1
  refine ⟨h1, ?_⟩
  intro ow2 cs2 rl2 il2 add2 hcs hrl hil
  have h2 := (handle_reads_ok_summary ⟨ow2, .ok cs2, .ok rl2, .ok il2, add2⟩ oc pre w cs2 rfl
    rl2 rfl il2 rfl).2.1
  rw [filter_sets_List] at h2
  rw [h1, h2, required_congr oc cs cs2 (Or.inl hcs), labelNames_congr rl rl2 hrl,
    labelNames_congr il il2 hil]

/-- C15: the calls of every run of `handle` follow one linear pipeline. The run is one of:
the `GetPullRequestChanges` read alone, when it fails or no label is required; that read
followed by `GetRepoLabels` alone, when a label is required and `GetRepoLabels` fails; the two
followed by `GetIssueLabels` alone, when `GetRepoLabels` succeeds and `GetIssueLabels` fails; or
the three reads, all successful, followed by `AddLabel` calls only. So `GetPullRequestChanges`
is called once and first, `GetRepoLabels` and `GetIssueLabels` at most once, in that order and
only when a label is required, `GetIssueLabels` never after a failed `GetRepoLabels`, and every
`AddLabel` call comes after both label reads have succeeded. -/
theorem handle_call_pipeline (sc : Script) (oc : ownersClient) (pre : PullRequestEvent)
    (w : World) :
    (issued w (handle (tracker sc) oc pre w).state
        = [.GetPullRequestChanges pre.Repo.Owner.Login pre.Repo.Name pre.Number] ∧
      ((∃ e, sc.changes = .error e) ∨ ∃ cs, sc.changes = .ok cs ∧ required oc cs = ∅)) ∨
    (issued w (handle (tracker sc) oc pre w).state
        = [.GetPullRequestChanges pre.Repo.Owner.Login pre.Repo.Name pre.Number,
            .GetRepoLabels pre.Repo.Owner.Login pre.Repo.Name] ∧
      ∃ cs e, sc.changes = .ok cs ∧ required oc cs ≠ ∅ ∧ sc.repoLabels = .error e) ∨
    (issued w (handle (tracker sc) oc pre w).state
        = [.GetPullRequestChanges pre.Repo.Owner.Login pre.Repo.Name pre.Number,
            .GetRepoLabels pre.Repo.Owner.Login pre.Repo.Name,
            .GetIssueLabels pre.Repo.Owner.Login pre.Repo.Name pre.Number] ∧
      ∃ cs rl e, sc.changes = .ok cs ∧ required oc cs ≠ ∅ ∧ sc.repoLabels = .ok rl
        ∧ sc.issueLabels = .error e) ∨
    (∃ E, issued w (handle (tracker sc) oc pre w).state
        = [.GetPullRequestChanges pre.Repo.Owner.Login pre.Repo.Name pre.Number,
            .GetRepoLabels pre.Repo.Owner.Login pre.Repo.Name,
            .GetIssueLabels pre.Repo.Owner.Login pre.Repo.Name pre.Number] ++ E ∧
      (∀ c ∈ E, ∃ l e, c = Call.AddLabel pre.Repo.Owner.Login pre.Repo.Name pre.Number l e) ∧
      ∃ cs rl il, sc.changes = .ok cs ∧ required oc cs ≠ ∅ ∧ sc.repoLabels = .ok rl
        ∧ sc.issueLabels = .ok il) := by
  rcases handle_paths sc oc with ⟨e, hc⟩ | ⟨cs, hc, hr⟩ | ⟨cs, e, hc, hr, hl⟩ |
    ⟨cs, rl, e, hc, hr, hl, hi⟩ | ⟨cs, rl, il, hc, hr, hl, hi⟩
  · refine Or.inl ⟨?_, Or.inl ⟨e, hc⟩⟩
    rw [handle_changes_error sc oc pre w e hc, issued_append]
  · refine Or.inl ⟨?_, Or.inr ⟨cs, hc, hr⟩⟩
    rw [handle_no_required sc oc pre w cs hc hr, issued_append]
  · refine Or.inr (Or.inl ⟨?_, cs, e, hc, hr, hl⟩)
    rw [handle_repoLabels_error sc oc pre w cs hc hr e hl, issued_append]
  · refine Or.inr (Or.inr (Or.inl ⟨?_, cs, rl, e, hc, hr, hl, hi⟩))
    rw [handle_issueLabels_error sc oc pre w cs hc hr rl hl e hi, issued_append]
  · obtain ⟨E, _, h2, _, h4, _, _⟩ := handle_reads_ok sc oc pre w cs hc hr rl hl il hi
    rw [List.append_assoc] at h2
    exact Or.inr (Or.inr (Or.inr ⟨E, issued_of_calls_eq w _ _ h2, h4, cs, rl, il, hc, hr, hl,
      hi⟩))

end OwnersLabel
